import Mathlib

/-!
Verification of `find_duplicates.py` (snyk_find_duplicate_projects).

The script is a linear pipeline: paginated fetch of project pages,
grouping of projects by target and by name, and report generation.
We embed the data model and the pure logic of the script as Lean
definitions and prove the specified properties about them.

JSON dictionaries with possibly-missing keys are embedded as structures
with `Option` fields; `d.get(k, default)` becomes `Option.bind` chains
followed by `Option.getD`.  Python dicts used as ordered maps
(insertion-ordered, as in CPython 3.7+) are embedded as association
lists: overwrite keeps the position of the first insertion, fresh keys
are appended at the end.
-/

set_option autoImplicit false

namespace SnykDup

/-- The `attributes` of a raw project record: `{name, type, origin}`, each key optional. -/
structure RawAttributes where
  name : Option String
  type : Option String
  origin : Option String
deriving DecidableEq, Repr

/-- The `relationships.target.data` of a raw project record: `{id}`. -/
structure TargetData where
  id : Option String
deriving DecidableEq, Repr

/-- The `relationships.target` of a raw project record: `{data}`. -/
structure TargetRef where
  data : Option TargetData
deriving DecidableEq, Repr

/-- The `relationships` of a raw project record: `{target}`. -/
structure Relationships where
  target : Option TargetRef
deriving DecidableEq, Repr

/-- A raw project record: `{id, attributes, relationships}`, each key optional. -/
structure RawProject where
  id : Option String
  attributes : Option RawAttributes
  relationships : Option Relationships
deriving DecidableEq, Repr

/-- The `attributes` of a raw target record: `{display_name}`. -/
structure TargetAttributes where
  display_name : Option String
deriving DecidableEq, Repr

/-- An element of a response's `included` array: `{id, type, attributes}`.
The fetch loop stores those whose `type` is `"target"` into the target map. -/
structure IncludedItem where
  id : Option String
  type : Option String
  attributes : Option TargetAttributes
deriving DecidableEq, Repr

/-- The target lookup table built by the fetch loop: keyed by `item.get("id")`,
which may be `None`, hence the `Option String` key. -/
abbrev TargetMap := List (Option String × IncludedItem)

/-- The flattened per-project record built by `extract_project_info`. -/
structure ProjectInfo where
  project_id : String
  project_name : String
  target_id : String
  target_name : String
  project_type : String
  origin : String
deriving DecidableEq, Repr

/-- First value of an association list at a key (Python `m[k]` / `k in m`). -/
def alookup {κ β : Type} [DecidableEq κ] : κ → List (κ × β) → Option β
  | _, [] => none
  | k, (k', v) :: rest => if k' = k then some v else alookup k rest

/-- Embeds `extract_project_info(self, project, targets)` (src lines 86-114): flatten a raw
project record, defaulting every missing field, and resolve the target display name
through the target map. -/
def extract_project_info (project : RawProject) (targets : TargetMap) : ProjectInfo :=
  let attributes := project.attributes
  let project_name := (attributes.bind RawAttributes.name).getD "Unknown"
  let target_data := (project.relationships.bind Relationships.target).bind TargetRef.data
  let target_id := (target_data.bind TargetData.id).getD ""
  let target_name :=
    if target_id ≠ "" then
      match alookup (some target_id) targets with
      | some tgt => (tgt.attributes.bind TargetAttributes.display_name).getD ""
      | none => ""
    else ""
  { project_id := project.id.getD ""
    project_name := project_name
    target_id := target_id
    target_name := target_name
    project_type := (attributes.bind RawAttributes.type).getD ""
    origin := (attributes.bind RawAttributes.origin).getD "" }

/-- Python `s or t` on strings: the empty string is falsy. -/
def pyOr (s t : String) : String := if s = "" then t else s

/-- Embeds `target_key = info["target_name"] or info["target_id"] or "unknown"` (src line 126). -/
def targetKey (info : ProjectInfo) : String :=
  pyOr info.target_name (pyOr info.target_id "unknown")

/-- One `defaultdict(list)` append: `m[k].append(v)`.  Overwriting keeps the entry
position, a fresh key goes to the end (CPython dict insertion order). -/
def updateAdd {α : Type} : List (String × List α) → String → α → List (String × List α)
  | [], k, v => [(k, [v])]
  | (k', vs) :: rest, k, v =>
      if k' = k then (k', vs ++ [v]) :: rest else (k', vs) :: updateAdd rest k v

/-- Embeds `for x in xs: m[key(x)].append(x)` over an initially empty `defaultdict(list)`. -/
def groupByKey {α : Type} (key : α → String) (xs : List α) : List (String × List α) :=
  xs.foldl (fun m x => updateAdd m (key x) x) []

/-- Embeds `find_duplicates(self, projects, targets)` (src lines 116-149): bucket projects
by target key, sub-group each bucket by project name, keep only sub-groups of size
`> 1` and only buckets with at least one surviving sub-group. -/
def find_duplicates (projects : List RawProject) (targets : TargetMap) :
    List (String × List (String × List ProjectInfo)) :=
  let infos := projects.map (fun p => extract_project_info p targets)
  let by_target := groupByKey targetKey infos
  let with_dups := by_target.map
    (fun tp => (tp.1, (groupByKey ProjectInfo.project_name tp.2).filter
      (fun ng => 1 < ng.2.length)))
  with_dups.filter (fun tp => !tp.2.isEmpty)

/-! Characterization helpers, used only to *state* properties of the grouping
functions (they are not part of the embedded program). -/

/-- What a bucket's stored list becomes once the elements of a further pass are
appended to it: `none` stays `none` only when the pass contributed nothing. -/
def combine {α : Type} : Option (List α) → List α → Option (List α)
  | some b, l => some (b ++ l)
  | none, [] => none
  | none, l => some l

/-- Deduplication keeping the *first* occurrence of each key, with an explicit
`seen` accumulator. -/
def dedupFirstAux : List String → List String → List String
  | _, [] => []
  | seen, k :: ks =>
      if k ∈ seen then dedupFirstAux seen ks
      else k :: dedupFirstAux (k :: seen) ks

/-- Deduplication keeping the first occurrence of each key: the key order a
CPython `defaultdict` ends up with after sequential appends. -/
def dedupFirst (ks : List String) : List String := dedupFirstAux [] ks

/-- One `{project_name, duplicate_count, projects}` entry of the report. -/
structure DuplicateEntry where
  project_name : String
  duplicate_count : Nat
  projects : List ProjectInfo
deriving DecidableEq, Repr

/-- One `{target_name, duplicate_project_names}` group of the report. -/
structure TargetGroup where
  target_name : String
  duplicate_project_names : List DuplicateEntry
deriving DecidableEq, Repr

/-- The emitted report object.  The two count fields are `Option` because `run`
omits them in the empty-duplicates degenerate form (src lines 196-198). -/
structure Report where
  org_id : String
  total_targets_with_duplicates : Option Nat
  duplicates_by_target : List TargetGroup
  total_duplicate_projects : Option Nat
deriving DecidableEq, Repr

/-- Embeds `generate_report(self, duplicates)` (src lines 151-182): one target group per
bucket in iteration order, one entry per name group, `duplicate_count` the length
of its project list, and the running total of all group sizes. -/
def generate_report (org_id : String)
    (duplicates : List (String × List (String × List ProjectInfo))) : Report :=
  { org_id := org_id
    total_targets_with_duplicates := some duplicates.length
    duplicates_by_target := duplicates.map (fun tg =>
      { target_name := tg.1
        duplicate_project_names := tg.2.map (fun ng =>
          { project_name := ng.1
            duplicate_count := ng.2.length
            projects := ng.2 }) })
    total_duplicate_projects := some (duplicates.foldl
      (fun acc tg => tg.2.foldl (fun a ng => a + ng.2.length) acc) 0) }

/-- The analysis/reporting part of `run(self)` (src lines 184-203): on an empty
duplicate mapping return the degenerate two-key report, otherwise the full report. -/
def run (org_id : String) (projects : List RawProject) (targets : TargetMap) : Report :=
  let duplicates := find_duplicates projects targets
  if duplicates.isEmpty then
    { org_id := org_id
      total_targets_with_duplicates := none
      duplicates_by_target := []
      total_duplicate_projects := none }
  else generate_report org_id duplicates

/-! ### The fetch loop -/

/-- The query parameters of the first request (src lines 34-38). -/
structure QueryParams where
  version : String
  expand : String
  limit : Nat
deriving DecidableEq, Repr

/-- The `params` of the initial request. -/
def initParams : QueryParams :=
  { version := "2025-11-05", expand := "target", limit := 100 }

/-- One HTTP GET as issued by the loop: the URL and the `params` argument
(`none` models Python `params=None`). -/
structure Request where
  url : String
  params : Option QueryParams
deriving DecidableEq, Repr

/-- The `links` of a page response: `{next}`; an absent key and a JSON `null`
both read back as `None` in Python, hence one `Option`. -/
structure Links where
  next : Option String
deriving DecidableEq, Repr

/-- One page response body: `{errors?, data?, included?, links?}`. -/
structure PageResponse where
  errors : Option (List String)
  data : Option (List RawProject)
  included : Option (List IncludedItem)
  links : Option Links
deriving DecidableEq, Repr

/-- The `next` link of a page, if any. -/
def pageNext (r : PageResponse) : Option String := r.links.bind Links.next

/-- Insert-or-overwrite for the target map (`all_targets[target_id] = item`):
an existing key keeps its position, a fresh key is appended. -/
def mapInsert (m : TargetMap) (k : Option String) (v : IncludedItem) : TargetMap :=
  match m with
  | [] => [(k, v)]
  | (k', v') :: rest =>
      if k' = k then (k, v) :: rest else (k', v') :: mapInsert rest k v

/-- The `included` scan of one page (src lines 61-65): store every item whose
`type` tag is `"target"`, keyed by its `id`. -/
def addIncluded (m : TargetMap) (items : List IncludedItem) : TargetMap :=
  items.foldl (fun m it => if it.type = some "target" then mapInsert m it.id it else m) m

/-- Python `s.startswith(pre)`: a code-point prefix test. -/
def startswith (s pre : String) : Bool := pre.data.isPrefixOf s.data

/-- Relative `next` URLs are resolved against the API domain (src lines 71-74). -/
def resolveNext (u : String) : String :=
  if startswith u "/" then "https://api.eu.snyk.io" ++ u else u

/-- The pagination loop of `fetch_all_projects` (src lines 43-84), with the remote
server modelled as the finite list of responses it returns, in request order.
Returns the issued requests together with the accumulated projects and targets.
Line 69's `if next_url:` is a Python truthiness test, so the loop continues only
on a next link that is present *and* non-empty: `None` and `""` both end it.
If the loop would issue a request but no response remains, it stops (the claims
proved below never depend on that artificial case). -/
def fetchGo : String → Option QueryParams → List PageResponse →
    List RawProject → TargetMap → List Request × List RawProject × TargetMap
  | _, _, [], projs, tgts => ([], projs, tgts)
  | url, params, r :: rest, projs, tgts =>
    if r.errors.isSome then ([⟨url, params⟩], projs, tgts)
    else
      let projs' := projs ++ r.data.getD []
      let tgts' := addIncluded tgts (r.included.getD [])
      match pageNext r with
      | none => ([⟨url, params⟩], projs', tgts')
      | some n =>
        if n = "" then ([⟨url, params⟩], projs', tgts')
        else
          let res := fetchGo (resolveNext n) none rest projs' tgts'
          (⟨url, params⟩ :: res.1, res.2)

/-- Embeds `fetch_all_projects(self)` (src lines 28-84) against a given response sequence. -/
def fetch_all_projects (org_id : String) (pages : List PageResponse) :
    List Request × List RawProject × TargetMap :=
  fetchGo ("https://api.eu.snyk.io/rest/orgs/" ++ org_id ++ "/projects")
    (some initParams) pages [] []

/-- The whole pipeline of `run(self)`: fetch, then analyse and report. -/
def run_from_pages (org_id : String) (pages : List PageResponse) : Report :=
  let res := fetch_all_projects org_id pages
  run org_id res.2.1 res.2.2

/-! ### Concrete fixtures (used by witness statements) -/

/-- A raw project record carrying a name and a target reference. -/
def mkNamedProj (nm tid : String) : RawProject :=
  { id := none
    attributes := some { name := some nm, type := none, origin := none }
    relationships := some { target := some { data := some { id := some tid } } } }

/-- A raw project record with no attributes at all, only a target reference. -/
def mkNamelessProj (tid : String) : RawProject :=
  { id := none
    attributes := none
    relationships := some { target := some { data := some { id := some tid } } } }

/-- The fully-empty raw project record. -/
def emptyProj : RawProject := { id := none, attributes := none, relationships := none }

/-- A placeholder `ProjectInfo` for report fixtures. -/
def dummyInfo : ProjectInfo :=
  { project_id := "", project_name := "", target_id := "", target_name := ""
    project_type := "", origin := "" }

/-- An error-free page response. -/
def pageOk (ps : List RawProject) (nxt : Option String) : PageResponse :=
  { errors := none, data := some ps, included := none, links := some { next := nxt } }

/-- A page response whose payload carries an `errors` list. -/
def pageErr (nxt : Option String) : PageResponse :=
  { errors := some ["err"], data := some [mkNamedProj "x" "t9"], included := none
    links := some { next := nxt } }

/-! ### Association-list and grouping lemmas -/

theorem alookup_eq_none {κ β : Type} [DecidableEq κ] {k : κ} :
    ∀ {m : List (κ × β)}, k ∉ m.map Prod.fst → alookup k m = none := by
  intro m
  induction m with
  | nil => intro _; rfl
  | cons e rest ih =>
    intro h
    obtain ⟨k', v⟩ := e
    simp only [List.map_cons, List.mem_cons, not_or] at h
    have hk : ¬ k' = k := fun hk => h.1 hk.symm
    simp only [alookup]
    rw [if_neg hk]
    exact ih h.2

theorem mem_of_alookup {κ β : Type} [DecidableEq κ] {k : κ} {v : β} :
    ∀ {m : List (κ × β)}, alookup k m = some v → (k, v) ∈ m := by
  intro m
  induction m with
  | nil => intro h; simp [alookup] at h
  | cons e rest ih =>
    obtain ⟨k', v'⟩ := e
    intro h
    simp only [alookup] at h
    split_ifs at h with hk
    · cases h; cases hk; exact List.mem_cons_self _ _
    · exact List.mem_cons_of_mem _ (ih h)

theorem alookup_of_mem_nodup {κ β : Type} [DecidableEq κ] {k : κ} {v : β} :
    ∀ {m : List (κ × β)}, (m.map Prod.fst).Nodup → (k, v) ∈ m → alookup k m = some v := by
  intro m
  induction m with
  | nil => intro _ h; simp at h
  | cons e rest ih =>
    obtain ⟨k', v'⟩ := e
    intro hnd hm
    simp only [List.map_cons, List.nodup_cons] at hnd
    rcases List.mem_cons.mp hm with heq | hrest
    · cases heq
      simp [alookup]
    · have hk : k' ≠ k := by
        intro hk; subst hk
        exact hnd.1 (List.mem_map_of_mem Prod.fst hrest)
      simp only [alookup, if_neg hk]
      exact ih hnd.2 hrest

theorem alookup_updateAdd {α : Type} (k₀ k : String) (v : α) :
    ∀ (m : List (String × List α)),
    alookup k (updateAdd m k₀ v) =
      if k₀ = k then some ((alookup k m).getD [] ++ [v]) else alookup k m := by
  intro m
  induction m with
  | nil =>
    simp only [updateAdd, alookup]
    split_ifs <;> rfl
  | cons e rest ih =>
    obtain ⟨k', vs⟩ := e
    simp only [updateAdd]
    by_cases h1 : k' = k₀
    · rw [if_pos h1]
      subst h1
      by_cases h2 : k' = k
      · subst h2
        simp [alookup]
      · simp [alookup, h2]
    · rw [if_neg h1]
      have h1' : ¬ k₀ = k' := fun h => h1 h.symm
      simp only [alookup]
      by_cases h2 : k' = k
      · subst h2
        simp [h1']
      · simp only [if_neg h2]
        exact ih

theorem combine_append {α : Type} (o : Option (List α)) (x : α) (l : List α) :
    combine (some (o.getD [] ++ [x])) l = combine o (x :: l) := by
  cases o <;> simp [combine]

theorem combine_nil {α : Type} (o : Option (List α)) : combine o [] = o := by
  cases o <;> simp [combine]

theorem alookup_foldl_updateAdd {α : Type} (key : α → String) (k : String) :
    ∀ (xs : List α) (m : List (String × List α)),
    alookup k (xs.foldl (fun m x => updateAdd m (key x) x) m) =
      combine (alookup k m) (xs.filter (fun x => key x = k)) := by
  intro xs
  induction xs with
  | nil => intro m; simp [combine_nil]
  | cons x xs ih =>
    intro m
    simp only [List.foldl_cons]
    rw [ih, alookup_updateAdd]
    by_cases h : key x = k
    · rw [if_pos h, combine_append, List.filter_cons_of_pos (by simp [h])]
    · rw [if_neg h, List.filter_cons_of_neg (by simp [h])]

theorem alookup_groupByKey {α : Type} (key : α → String) (k : String) (xs : List α) :
    alookup k (groupByKey key xs) = combine none (xs.filter (fun x => key x = k)) := by
  simpa using alookup_foldl_updateAdd key k xs []

theorem alookup_groupByKey_of_ne_nil {α : Type} (key : α → String) (k : String)
    (xs : List α) (h : xs.filter (fun x => key x = k) ≠ []) :
    alookup k (groupByKey key xs) = some (xs.filter (fun x => key x = k)) := by
  rw [alookup_groupByKey]
  cases hf : xs.filter (fun x => key x = k) with
  | nil => exact absurd hf h
  | cons a l => rfl

theorem keys_updateAdd {α : Type} (k : String) (v : α) :
    ∀ (m : List (String × List α)),
    (updateAdd m k v).map Prod.fst =
      if k ∈ m.map Prod.fst then m.map Prod.fst else m.map Prod.fst ++ [k] := by
  intro m
  induction m with
  | nil => simp [updateAdd]
  | cons e rest ih =>
    obtain ⟨k', vs⟩ := e
    simp only [updateAdd]
    by_cases h1 : k' = k
    · subst h1
      simp
    · have h1' : ¬ k = k' := fun h => h1 h.symm
      simp only [if_neg h1, List.map_cons, List.mem_cons, h1', false_or, ih]
      by_cases h2 : k ∈ rest.map Prod.fst
      · simp [h2]
      · simp [h2]

theorem dedupFirstAux_congr :
    ∀ (ks s s' : List String),
    (∀ a, a ∈ s ↔ a ∈ s') → dedupFirstAux s ks = dedupFirstAux s' ks := by
  intro ks
  induction ks with
  | nil => intro s s' _; rfl
  | cons k ks ih =>
    intro s s' hss
    simp only [dedupFirstAux]
    by_cases h : k ∈ s
    · rw [if_pos h, if_pos ((hss k).mp h)]
      exact ih s s' hss
    · rw [if_neg h, if_neg (fun h' => h ((hss k).mpr h'))]
      refine congrArg _ (ih (k :: s) (k :: s') fun a => ?_)
      simp only [List.mem_cons]
      exact or_congr Iff.rfl (hss a)

theorem keys_foldl_updateAdd {α : Type} (key : α → String) :
    ∀ (xs : List α) (m : List (String × List α)),
    (xs.foldl (fun m x => updateAdd m (key x) x) m).map Prod.fst =
      m.map Prod.fst ++ dedupFirstAux (m.map Prod.fst) (xs.map key) := by
  intro xs
  induction xs with
  | nil => intro m; simp [dedupFirstAux]
  | cons x xs ih =>
    intro m
    simp only [List.foldl_cons, List.map_cons, dedupFirstAux]
    rw [ih, keys_updateAdd]
    by_cases h : key x ∈ m.map Prod.fst
    · rw [if_pos h, if_pos h]
    · rw [if_neg h, if_neg h]
      rw [dedupFirstAux_congr (xs.map key)
        (m.map Prod.fst ++ [key x]) (key x :: m.map Prod.fst)
        (fun a => by simp [or_comm])]
      simp

theorem keys_groupByKey {α : Type} (key : α → String) (xs : List α) :
    (groupByKey key xs).map Prod.fst = dedupFirst (xs.map key) := by
  simpa [dedupFirst] using keys_foldl_updateAdd key xs []

theorem not_mem_seen_of_mem_dedupFirstAux {a : String} :
    ∀ {ks seen : List String}, a ∈ dedupFirstAux seen ks → a ∉ seen := by
  intro ks
  induction ks with
  | nil => intro seen h; simp [dedupFirstAux] at h
  | cons k ks ih =>
    intro seen h
    simp only [dedupFirstAux] at h
    split_ifs at h with hk
    · exact ih h
    · rcases List.mem_cons.mp h with rfl | h'
      · exact hk
      · intro ha
        exact ih h' (List.mem_cons_of_mem _ ha)

theorem nodup_dedupFirstAux : ∀ (ks seen : List String), (dedupFirstAux seen ks).Nodup := by
  intro ks
  induction ks with
  | nil => intro seen; simp [dedupFirstAux]
  | cons k ks ih =>
    intro seen
    simp only [dedupFirstAux]
    split_ifs with hk
    · exact ih seen
    · refine List.nodup_cons.mpr ⟨?_, ih _⟩
      intro hmem
      exact not_mem_seen_of_mem_dedupFirstAux hmem (List.mem_cons_self _ _)

theorem nodup_keys_groupByKey {α : Type} (key : α → String) (xs : List α) :
    ((groupByKey key xs).map Prod.fst).Nodup := by
  rw [keys_groupByKey]
  exact nodup_dedupFirstAux _ _

theorem eq_filter_of_mem_groupByKey {α : Type} (key : α → String) {xs : List α}
    {k : String} {b : List α} (h : (k, b) ∈ groupByKey key xs) :
    b = xs.filter (fun x => key x = k) := by
  have hl := alookup_of_mem_nodup (nodup_keys_groupByKey key xs) h
  rw [alookup_groupByKey] at hl
  cases hf : xs.filter (fun x => key x = k) with
  | nil => rw [hf] at hl; simp [combine] at hl
  | cons a l =>
    rw [hf] at hl
    simp only [combine, Option.some.injEq] at hl
    exact hl.symm

theorem alookup_mapVal {β γ : Type} (F : String → β → γ) (k : String) :
    ∀ (m : List (String × β)),
    alookup k (m.map (fun e => (e.1, F e.1 e.2))) = (alookup k m).map (F k) := by
  intro m
  induction m with
  | nil => rfl
  | cons e rest ih =>
    obtain ⟨k', v⟩ := e
    simp only [List.map_cons, alookup]
    by_cases h : k' = k
    · subst h; simp
    · simp [if_neg h, ih]

theorem alookup_filterVal {β : Type} (pr : β → Bool) (k : String) :
    ∀ (m : List (String × β)), (m.map Prod.fst).Nodup →
    alookup k (m.filter (fun e => pr e.2)) =
      (alookup k m).bind (fun v => if pr v then some v else none) := by
  intro m
  induction m with
  | nil => intro _; rfl
  | cons e rest ih =>
    obtain ⟨k', v⟩ := e
    intro hnd
    simp only [List.map_cons, List.nodup_cons] at hnd
    by_cases hp : pr v
    · rw [List.filter_cons_of_pos (by simpa using hp)]
      simp only [alookup]
      by_cases h : k' = k
      · subst h; simp [hp]
      · rw [if_neg h, if_neg h, ih hnd.2]
    · rw [List.filter_cons_of_neg (by simpa using hp)]
      simp only [alookup]
      by_cases h : k' = k
      · subst h
        rw [if_pos rfl, ih hnd.2, alookup_eq_none hnd.1]
        simp [hp]
      · rw [if_neg h, ih hnd.2]

theorem keys_mapVal {β γ : Type} (F : String → β → γ) :
    ∀ (m : List (String × β)),
    (m.map (fun e => (e.1, F e.1 e.2))).map Prod.fst = m.map Prod.fst := by
  intro m
  induction m with
  | nil => rfl
  | cons e rest ih => simp [ih]

theorem foldl_add_length {β : Type} (f : β → Nat) :
    ∀ (l : List β) (a : Nat), l.foldl (fun a b => a + f b) a = a + (l.map f).sum := by
  intro l
  induction l with
  | nil => intro a; simp
  | cons x xs ih =>
    intro a
    simp only [List.foldl_cons, List.map_cons, List.sum_cons]
    rw [ih]
    omega

/-! ### Claim theorems -/

/-- C1: `find_duplicates` returns only name-groups containing at least two
`ProjectInfo` members, and only target buckets that still contain at least one
such group after filtering. -/
theorem find_duplicates_only_real_duplicates
    (projects : List RawProject) (targets : TargetMap) :
    ∀ t gs, (t, gs) ∈ find_duplicates projects targets →
      gs ≠ [] ∧ ∀ n g, (n, g) ∈ gs → 2 ≤ g.length := by
  intro t gs hmem
  simp only [find_duplicates, List.mem_filter, List.mem_map] at hmem
  obtain ⟨⟨tp, _, heq⟩, hne⟩ := hmem
  injection heq with h1 h2
  constructor
  · intro h
    rw [h] at hne
    simp at hne
  · intro n g hg
    rw [← h2, List.mem_filter] at hg
    have := hg.2
    simp only [decide_eq_true_iff] at this
    exact this

/-- C1 witness: for a target with projects named `["a","a","b"]`, the result
contains exactly the `"a"` group with two entries (and no `"b"` group), and the
theorem applies to it. -/
theorem find_duplicates_only_real_duplicates_witness :
    find_duplicates [mkNamedProj "a" "t1", mkNamedProj "a" "t1", mkNamedProj "b" "t1"] [] =
      [("t1", [("a", [extract_project_info (mkNamedProj "a" "t1") [],
                      extract_project_info (mkNamedProj "a" "t1") []])])] ∧
    (∀ n g,
      (n, g) ∈ [("a", [extract_project_info (mkNamedProj "a" "t1") [],
                       extract_project_info (mkNamedProj "a" "t1") []])] → 2 ≤ g.length) := by
  have he : find_duplicates
      [mkNamedProj "a" "t1", mkNamedProj "a" "t1", mkNamedProj "b" "t1"] [] =
      [("t1", [("a", [extract_project_info (mkNamedProj "a" "t1") [],
                      extract_project_info (mkNamedProj "a" "t1") []])])] := by rfl
  refine ⟨he, ?_⟩
  exact (find_duplicates_only_real_duplicates _ [] _ _
    (by rw [he]; exact List.mem_singleton_self _)).2

/-- C3: for every project in the input list, the bucket `find_duplicates` puts
it in is keyed by the resolved display name if non-empty, else the target
identifier if non-empty, else `"unknown"`. -/
theorem target_bucket_key_fallback (projects : List RawProject) (targets : TargetMap)
    (p : RawProject) (hp : p ∈ projects) :
    targetKey (extract_project_info p targets) =
      (if (extract_project_info p targets).target_name ≠ "" then
        (extract_project_info p targets).target_name
      else if (extract_project_info p targets).target_id ≠ "" then
        (extract_project_info p targets).target_id
      else "unknown") ∧
    ∃ b, alookup
        (if (extract_project_info p targets).target_name ≠ "" then
          (extract_project_info p targets).target_name
        else if (extract_project_info p targets).target_id ≠ "" then
          (extract_project_info p targets).target_id
        else "unknown")
        (groupByKey targetKey (projects.map (fun q => extract_project_info q targets))) =
      some b ∧ extract_project_info p targets ∈ b := by
  have hkey : targetKey (extract_project_info p targets) =
      (if (extract_project_info p targets).target_name ≠ "" then
        (extract_project_info p targets).target_name
      else if (extract_project_info p targets).target_id ≠ "" then
        (extract_project_info p targets).target_id
      else "unknown") := by
    generalize extract_project_info p targets = info
    by_cases h1 : info.target_name = "" <;> by_cases h2 : info.target_id = "" <;>
      simp [targetKey, pyOr, h1, h2]
  refine ⟨hkey, ?_⟩
  rw [← hkey]
  set k := targetKey (extract_project_info p targets) with hk
  have hmemf : extract_project_info p targets ∈
      (projects.map (fun q => extract_project_info q targets)).filter
        (fun i => targetKey i = k) := by
    rw [List.mem_filter]
    exact ⟨List.mem_map_of_mem _ hp, by simp [hk]⟩
  have hne : (projects.map (fun q => extract_project_info q targets)).filter
      (fun i => targetKey i = k) ≠ [] := by
    intro h
    rw [h] at hmemf
    simp at hmemf
  exact ⟨_, alookup_groupByKey_of_ne_nil targetKey k _ hne, hmemf⟩

/-- C3 witness: a project whose target resolves to no display name but has a
non-empty identifier is bucketed under that identifier. -/
theorem target_bucket_key_fallback_witness :
    (extract_project_info (mkNamedProj "a" "t1") []).target_name = "" ∧
    (extract_project_info (mkNamedProj "a" "t1") []).target_id = "t1" ∧
    targetKey (extract_project_info (mkNamedProj "a" "t1") []) = "t1" ∧
    ∃ b, alookup "t1"
        (groupByKey targetKey ([mkNamedProj "a" "t1"].map
          (fun q => extract_project_info q []))) = some b ∧
      extract_project_info (mkNamedProj "a" "t1") [] ∈ b := by
  have h := target_bucket_key_fallback [mkNamedProj "a" "t1"] [] (mkNamedProj "a" "t1")
    (List.mem_singleton_self _)
  refine ⟨rfl, rfl, ?_, ?_⟩
  · rw [h.1]; rfl
  · have h2 := h.2
    simpa using h2

/-- C4: when the duplicate mapping is empty, `run` emits exactly the degenerate
report `{org_id, duplicates_by_target: []}`, both count fields omitted. -/
theorem run_empty_duplicates_degenerate (org : String) (projects : List RawProject)
    (targets : TargetMap) (h : find_duplicates projects targets = []) :
    run org projects targets =
      { org_id := org, total_targets_with_duplicates := none,
        duplicates_by_target := [], total_duplicate_projects := none } := by
  simp [run, h]

/-- C4 witness: an empty organization yields the degenerate report. -/
theorem run_empty_duplicates_degenerate_witness :
    find_duplicates [] [] = [] ∧
    run "org-1" [] [] =
      { org_id := "org-1", total_targets_with_duplicates := none,
        duplicates_by_target := [], total_duplicate_projects := none } :=
  ⟨rfl, run_empty_duplicates_degenerate "org-1" [] [] rfl⟩

/-- C8: `extract_project_info` degrades every missing field to its default:
absent name yields `"Unknown"`, absent target reference yields an empty target
identifier, an unresolvable display name yields an empty target name, absent
type/origin attributes yield empty strings. -/
theorem extract_project_info_defaults (p : RawProject) (ts : TargetMap) :
    (p.attributes.bind RawAttributes.name = none →
      (extract_project_info p ts).project_name = "Unknown") ∧
    (((p.relationships.bind Relationships.target).bind TargetRef.data).bind TargetData.id
        = none →
      (extract_project_info p ts).target_id = "") ∧
    ((if (extract_project_info p ts).target_id ≠ "" then
        (alookup (some (extract_project_info p ts).target_id) ts).bind
          (fun tgt => tgt.attributes.bind TargetAttributes.display_name)
      else none) = none →
      (extract_project_info p ts).target_name = "") ∧
    (p.attributes.bind RawAttributes.type = none →
      (extract_project_info p ts).project_type = "") ∧
    (p.attributes.bind RawAttributes.origin = none →
      (extract_project_info p ts).origin = "") := by
  refine ⟨?_, ?_, ?_, ?_, ?_⟩
  · intro h; simp [extract_project_info, h]
  · intro h; simp [extract_project_info, h]
  · intro h
    simp only [extract_project_info] at h ⊢
    by_cases htid :
        ((p.relationships.bind Relationships.target).bind TargetRef.data).bind
          TargetData.id = some "" ∨
        ((p.relationships.bind Relationships.target).bind TargetRef.data).bind
          TargetData.id = none
    · rcases htid with htid | htid <;> simp [htid]
    · push_neg at htid
      cases hid : ((p.relationships.bind Relationships.target).bind TargetRef.data).bind
          TargetData.id with
      | none => exact absurd hid htid.2
      | some tid =>
        have htid' : tid ≠ "" := by
          intro hh; rw [hh] at hid; exact htid.1 hid
        rw [hid] at h
        simp only [Option.getD_some] at h ⊢
        rw [if_pos htid'] at h ⊢
        cases hl : alookup (some tid) ts with
        | none => simp
        | some tgt =>
          rw [hl] at h
          simp only [Option.some_bind] at h
          simp [h]
  · intro h; simp [extract_project_info, h]
  · intro h; simp [extract_project_info, h]

/-- C8 witness: the fully-empty project record maps to all defaults. -/
theorem extract_project_info_defaults_witness :
    extract_project_info emptyProj [] =
      { project_id := "", project_name := "Unknown", target_id := "", target_name := "",
        project_type := "", origin := "" } ∧
    (extract_project_info emptyProj []).project_name = "Unknown" ∧
    (extract_project_info emptyProj []).target_id = "" ∧
    (extract_project_info emptyProj []).target_name = "" ∧
    (extract_project_info emptyProj []).project_type = "" ∧
    (extract_project_info emptyProj []).origin = "" := by
  have h := extract_project_info_defaults emptyProj []
  exact ⟨rfl, h.1 rfl, h.2.1 rfl, h.2.2.1 (by rfl), h.2.2.2.1 rfl, h.2.2.2.2 rfl⟩

/-- C2: `generate_report` on a non-empty duplicate mapping counts target buckets
in `total_targets_with_duplicates`, sets every entry's `duplicate_count` to the
length of its project list, and sums all group sizes into
`total_duplicate_projects`. -/
theorem generate_report_totals (org : String)
    (dups : List (String × List (String × List ProjectInfo))) (hne : dups ≠ []) :
    (generate_report org dups).total_targets_with_duplicates = some dups.length ∧
    (∀ tg ∈ (generate_report org dups).duplicates_by_target,
      ∀ e ∈ tg.duplicate_project_names, e.duplicate_count = e.projects.length) ∧
    (generate_report org dups).total_duplicate_projects =
      some ((dups.map (fun tg => (tg.2.map (fun ng => ng.2.length)).sum)).sum) := by
  refine ⟨rfl, ?_, ?_⟩
  · intro tg htg e he
    simp only [generate_report, List.mem_map] at htg
    obtain ⟨tp, _, heq⟩ := htg
    rw [← heq] at he
    simp only [List.mem_map] at he
    obtain ⟨ng, _, heq2⟩ := he
    rw [← heq2]
  · simp only [generate_report, Option.some.injEq]
    have hinner : (fun (acc : Nat) (tg : String × List (String × List ProjectInfo)) =>
        tg.2.foldl (fun a ng => a + ng.2.length) acc) =
        (fun acc tg => acc + (tg.2.map (fun ng => ng.2.length)).sum) := by
      funext acc tg
      exact foldl_add_length (fun ng => ng.2.length) tg.2 acc
    rw [hinner, foldl_add_length (fun tg => (tg.2.map (fun ng => ng.2.length)).sum) dups 0]
    simp

/-- C2 witness: three targets with group sizes `[2, 3, 2]` give
`total_targets_with_duplicates = 3` and `total_duplicate_projects = 7`. -/
theorem generate_report_totals_witness :
    (generate_report "o"
      [("t1", [("p", List.replicate 2 dummyInfo)]),
       ("t2", [("q", List.replicate 3 dummyInfo)]),
       ("t3", [("r", List.replicate 2 dummyInfo)])]).total_targets_with_duplicates =
      some 3 ∧
    (generate_report "o"
      [("t1", [("p", List.replicate 2 dummyInfo)]),
       ("t2", [("q", List.replicate 3 dummyInfo)]),
       ("t3", [("r", List.replicate 2 dummyInfo)])]).total_duplicate_projects =
      some 7 := by
  have h := generate_report_totals "o"
    [("t1", [("p", List.replicate 2 dummyInfo)]),
     ("t2", [("q", List.replicate 3 dummyInfo)]),
     ("t3", [("r", List.replicate 2 dummyInfo)])] (List.cons_ne_nil _ _)
  exact ⟨h.1, h.2.2⟩

/-- C9: `find_duplicates` is a deterministic pure function of its input, its
target buckets appear in order of first occurrence of their key in the input,
and every name-group is the in-order sublist of inputs with that target key and
name (so members keep the input's relative order). -/
theorem find_duplicates_deterministic_ordered (ps : List RawProject) (ts : TargetMap) :
    (∀ ps' ts', ps' = ps → ts' = ts → find_duplicates ps' ts' = find_duplicates ps ts) ∧
    ((find_duplicates ps ts).map Prod.fst).Sublist
      (dedupFirst ((ps.map (fun p => extract_project_info p ts)).map targetKey)) ∧
    (∀ t gs, (t, gs) ∈ find_duplicates ps ts → ∀ n g, (n, g) ∈ gs →
      g = ((ps.map (fun p => extract_project_info p ts)).filter
            (fun i => targetKey i = t)).filter
          (fun i => i.project_name = n)) := by
  refine ⟨?_, ?_, ?_⟩
  · intro ps' ts' h1 h2
    rw [h1, h2]
  · have hsub : (find_duplicates ps ts).map Prod.fst |>.Sublist
        (((groupByKey targetKey (ps.map (fun p => extract_project_info p ts))).map
          (fun tp => (tp.1, (groupByKey ProjectInfo.project_name tp.2).filter
            (fun ng => 1 < ng.2.length)))).map Prod.fst) := by
      exact List.Sublist.map Prod.fst (List.filter_sublist _)
    rw [keys_mapVal (fun _ d => (groupByKey ProjectInfo.project_name d).filter
        (fun ng => 1 < ng.2.length)), keys_groupByKey] at hsub
    exact hsub
  · intro t gs hmem n g hg
    simp only [find_duplicates, List.mem_filter, List.mem_map] at hmem
    obtain ⟨⟨tp, htp, heq⟩, _⟩ := hmem
    injection heq with h1 h2
    subst h1
    have hb := eq_filter_of_mem_groupByKey targetKey htp
    rw [← h2, List.mem_filter] at hg
    have hgeq := eq_filter_of_mem_groupByKey ProjectInfo.project_name hg.1
    rw [hb] at hgeq
    exact hgeq

/-- C9 witness: on the concrete `["a","a","b"]` input the theorem instantiates,
and the `"a"` group is exactly the ordered filter of the inputs. -/
theorem find_duplicates_deterministic_ordered_witness :
    find_duplicates [mkNamedProj "a" "t1", mkNamedProj "a" "t1", mkNamedProj "b" "t1"] [] =
      find_duplicates [mkNamedProj "a" "t1", mkNamedProj "a" "t1", mkNamedProj "b" "t1"] [] ∧
    [extract_project_info (mkNamedProj "a" "t1") [],
     extract_project_info (mkNamedProj "a" "t1") []] =
      ((([mkNamedProj "a" "t1", mkNamedProj "a" "t1", mkNamedProj "b" "t1"].map
          (fun p => extract_project_info p [])).filter
        (fun i => targetKey i = "t1")).filter (fun i => i.project_name = "a")) := by
  have h := find_duplicates_deterministic_ordered
    [mkNamedProj "a" "t1", mkNamedProj "a" "t1", mkNamedProj "b" "t1"] []
  refine ⟨h.1 _ _ rfl rfl, ?_⟩
  have he : find_duplicates
      [mkNamedProj "a" "t1", mkNamedProj "a" "t1", mkNamedProj "b" "t1"] [] =
      [("t1", [("a", [extract_project_info (mkNamedProj "a" "t1") [],
                      extract_project_info (mkNamedProj "a" "t1") []])])] := by rfl
  exact h.2.2 "t1" _ (by rw [he]; exact List.mem_singleton_self _) "a" _
    (List.mem_singleton_self _)

/-- C10: when at least two project records under the same target-bucket key lack
a name attribute, each gets the default name `"Unknown"`, and `find_duplicates`
reports them together as a duplicate group named `"Unknown"` under that key. -/
theorem nameless_projects_grouped_unknown (ps : List RawProject) (ts : TargetMap)
    (k : String)
    (hcount : 2 ≤ (ps.filter (fun p => p.attributes.bind RawAttributes.name = none ∧
        targetKey (extract_project_info p ts) = k)).length) :
    (∀ p ∈ ps, p.attributes.bind RawAttributes.name = none →
      (extract_project_info p ts).project_name = "Unknown") ∧
    ∃ gs g, alookup k (find_duplicates ps ts) = some gs ∧
      alookup "Unknown" gs = some g ∧ 2 ≤ g.length := by
  have hname : ∀ p ∈ ps, p.attributes.bind RawAttributes.name = none →
      (extract_project_info p ts).project_name = "Unknown" := by
    intro p _ h
    simp [extract_project_info, h]
  refine ⟨hname, ?_⟩
  have hmono : (ps.filter (fun p => p.attributes.bind RawAttributes.name = none ∧
      targetKey (extract_project_info p ts) = k)).length ≤
      ((ps.map (fun p => extract_project_info p ts)).filter
        (fun i => i.project_name = "Unknown" ∧ targetKey i = k)).length := by
    rw [← List.countP_eq_length_filter, ← List.countP_eq_length_filter, List.countP_map]
    apply List.countP_mono_left
    intro p hp hdec
    simp only [decide_eq_true_iff] at hdec
    simp only [Function.comp_apply, decide_eq_true_iff]
    exact ⟨hname p hp hdec.1, hdec.2⟩
  have hg2 : 2 ≤ (((ps.map (fun p => extract_project_info p ts)).filter
      (fun i => targetKey i = k)).filter (fun i => i.project_name = "Unknown")).length := by
    have heq : ((ps.map (fun p => extract_project_info p ts)).filter
        (fun i => targetKey i = k)).filter (fun i => i.project_name = "Unknown") =
        (ps.map (fun p => extract_project_info p ts)).filter
          (fun i => i.project_name = "Unknown" ∧ targetKey i = k) := by
      rw [List.filter_filter]
      simp [Bool.decide_and]
    rw [heq]
    exact le_trans hcount hmono
  set infos := ps.map (fun p => extract_project_info p ts) with hinfos
  set b := infos.filter (fun i => targetKey i = k) with hbdef
  set g := b.filter (fun i => i.project_name = "Unknown") with hgdef
  have hgne : g ≠ [] := by
    intro h
    rw [h] at hg2
    simp at hg2
  have hbne : b ≠ [] := by
    intro h
    apply hgne
    rw [hgdef, h]
    rfl
  have h1 : alookup k (groupByKey targetKey infos) = some b :=
    alookup_groupByKey_of_ne_nil _ _ _ hbne
  have h2 : alookup "Unknown" (groupByKey ProjectInfo.project_name b) = some g :=
    alookup_groupByKey_of_ne_nil _ _ _ hgne
  have hglen : 1 < g.length := hg2
  have h3 : alookup "Unknown" ((groupByKey ProjectInfo.project_name b).filter
      (fun ng => 1 < ng.2.length)) = some g := by
    have hfil := alookup_filterVal (fun l : List ProjectInfo => decide (1 < l.length))
      "Unknown" (groupByKey ProjectInfo.project_name b)
      (nodup_keys_groupByKey ProjectInfo.project_name b)
    rw [h2] at hfil
    simp only [Option.some_bind, decide_eq_true_iff] at hfil
    rw [if_pos hglen] at hfil
    exact hfil
  have hgsne : (groupByKey ProjectInfo.project_name b).filter
      (fun ng => 1 < ng.2.length) ≠ [] := by
    intro h
    rw [h] at h3
    simp [alookup] at h3
  refine ⟨_, g, ?_, h3, hg2⟩
  show alookup k (((groupByKey targetKey infos).map
      (fun tp => (tp.1, (groupByKey ProjectInfo.project_name tp.2).filter
        (fun ng => 1 < ng.2.length)))).filter (fun tp => !tp.2.isEmpty)) = _
  have hnd : ((((groupByKey targetKey infos).map
      (fun tp => (tp.1, (groupByKey ProjectInfo.project_name tp.2).filter
        (fun ng => 1 < ng.2.length))))).map Prod.fst).Nodup := by
    have := keys_mapVal (fun (_ : String) (d : List ProjectInfo) =>
      (groupByKey ProjectInfo.project_name d).filter (fun ng => 1 < ng.2.length))
      (groupByKey targetKey infos)
    rw [this]
    exact nodup_keys_groupByKey _ _
  have hfil := alookup_filterVal
    (fun d : List (String × List ProjectInfo) => !d.isEmpty) k
    ((groupByKey targetKey infos).map
      (fun tp => (tp.1, (groupByKey ProjectInfo.project_name tp.2).filter
        (fun ng => 1 < ng.2.length)))) hnd
  have hmap := alookup_mapVal
    (fun (_ : String) (d : List ProjectInfo) =>
      (groupByKey ProjectInfo.project_name d).filter (fun ng => 1 < ng.2.length))
    k (groupByKey targetKey infos)
  rw [hmap, h1] at hfil
  simp only [Option.map_some, Option.some_bind] at hfil
  rw [hfil]
  simp [hgsne]

/-- C10 witness: two nameless projects on the same target are reported as a
duplicate group named `"Unknown"`. -/
theorem nameless_projects_grouped_unknown_witness :
    2 ≤ ([mkNamelessProj "t1", mkNamelessProj "t1"].filter
        (fun p => p.attributes.bind RawAttributes.name = none ∧
          targetKey (extract_project_info p []) = "t1")).length ∧
    ∃ gs g,
      alookup "t1" (find_duplicates [mkNamelessProj "t1", mkNamelessProj "t1"] []) =
        some gs ∧
      alookup "Unknown" gs = some g ∧ 2 ≤ g.length :=
  ⟨by decide,
   (nameless_projects_grouped_unknown [mkNamelessProj "t1", mkNamelessProj "t1"] [] "t1"
     (by decide)).2⟩

/-! ### Fetch-loop lemmas -/

theorem fetchGo_soft_stop {err : PageResponse} (herr : err.errors.isSome)
    (rest : List PageResponse) :
    ∀ (good : List PageResponse) (url : String) (params : Option QueryParams)
      (projs : List RawProject) (tgts : TargetMap),
    (∀ p ∈ good, p.errors = none ∧ (pageNext p).isSome) →
    (fetchGo url params (good ++ err :: rest) projs tgts).2 =
      (fetchGo url params good projs tgts).2 := by
  intro good
  induction good with
  | nil =>
    intro url params projs tgts _
    simp [fetchGo, herr]
  | cons p good ih =>
    intro url params projs tgts hg
    obtain ⟨hperr, hpnext⟩ := hg p (List.mem_cons_self _ _)
    cases hnx : pageNext p with
    | none => rw [hnx] at hpnext; simp at hpnext
    | some n =>
      by_cases hn : n = ""
      · subst hn
        simp [fetchGo, hperr, hnx]
      · simp only [List.cons_append, fetchGo, hperr, Option.isSome_none,
          Bool.false_eq_true, if_false, hnx, if_neg hn]
        exact ih (resolveNext n) none _ _ (fun q hq => hg q (List.mem_cons_of_mem _ hq))

theorem fetchGo_head (url : String) (params : Option QueryParams)
    (projs : List RawProject) (tgts : TargetMap) :
    ∀ (pages : List PageResponse),
    (fetchGo url params pages projs tgts).1 = [] ∨
    ∃ t, (fetchGo url params pages projs tgts).1 = ⟨url, params⟩ :: t := by
  intro pages
  cases pages with
  | nil => exact Or.inl rfl
  | cons r rest =>
    by_cases herr : r.errors.isSome
    · exact Or.inr ⟨[], by simp [fetchGo, herr]⟩
    · cases hnx : pageNext r with
      | none =>
        exact Or.inr ⟨[], by simp [fetchGo, herr, hnx]⟩
      | some n =>
        by_cases hn : n = ""
        · exact Or.inr ⟨[], by simp [fetchGo, herr, hnx, hn]⟩
        · refine Or.inr ⟨(fetchGo (resolveNext n) none rest
            (projs ++ r.data.getD []) (addIncluded tgts (r.included.getD []))).1, ?_⟩
          simp [fetchGo, herr, hnx, hn]

theorem fetchGo_next_requests :
    ∀ (pages : List PageResponse) (url : String) (params : Option QueryParams)
      (projs : List RawProject) (tgts : TargetMap) (i : Nat),
    i + 1 < (fetchGo url params pages projs tgts).1.length →
    ∃ r n, pages[i]? = some r ∧ r.errors = none ∧ pageNext r = some n ∧
      (fetchGo url params pages projs tgts).1[i + 1]? =
        some ⟨if startswith n "/" then "https://api.eu.snyk.io" ++ n else n, none⟩ := by
  intro pages
  induction pages with
  | nil =>
    intro url params projs tgts i h
    simp [fetchGo] at h
  | cons r rest ih =>
    intro url params projs tgts i h
    by_cases herr : r.errors.isSome
    · rw [show (fetchGo url params (r :: rest) projs tgts).1 = [⟨url, params⟩] by
        simp [fetchGo, herr]] at h
      simp at h
    · cases hnx : pageNext r with
      | none =>
        rw [show (fetchGo url params (r :: rest) projs tgts).1 = [⟨url, params⟩] by
          simp [fetchGo, herr, hnx]] at h
        simp at h
      | some n =>
        by_cases hn : n = ""
        · rw [show (fetchGo url params (r :: rest) projs tgts).1 = [⟨url, params⟩] by
            simp [fetchGo, herr, hnx, hn]] at h
          simp at h
        · have hstep : (fetchGo url params (r :: rest) projs tgts).1 =
              ⟨url, params⟩ :: (fetchGo (resolveNext n) none rest
                (projs ++ r.data.getD []) (addIncluded tgts (r.included.getD []))).1 := by
            simp [fetchGo, herr, hnx, hn]
          rw [hstep] at h ⊢
          cases i with
          | zero =>
            refine ⟨r, n, by simp, Option.not_isSome_iff_eq_none.mp herr, hnx, ?_⟩
            simp only [List.length_cons, Nat.lt_add_one_iff] at h
            rcases fetchGo_head (resolveNext n) none
                (projs ++ r.data.getD []) (addIncluded tgts (r.included.getD [])) rest with
              hnil | ⟨t, ht⟩
            · rw [hnil] at h
              simp at h
            · rw [ht]
              simp [resolveNext]
          | succ j =>
            simp only [List.length_cons, Nat.add_lt_add_iff_right] at h
            obtain ⟨r', n', h1, h2, h3, h4⟩ := ih (resolveNext n) none _ _ j h
            exact ⟨r', n', by simpa using h1, h2, h3, by simpa using h4⟩

theorem fetchGo_pagination :
    ∀ (mid : List PageResponse) (last : PageResponse) (extra : List PageResponse)
      (url : String) (params : Option QueryParams)
      (projs : List RawProject) (tgts : TargetMap),
    (∀ p ∈ mid, p.errors = none ∧ (pageNext p).getD "" ≠ "") →
    last.errors = none → pageNext last = none →
    (fetchGo url params (mid ++ last :: extra) projs tgts).1 =
      (fetchGo url params (mid ++ [last]) projs tgts).1 ∧
    (fetchGo url params (mid ++ [last]) projs tgts).1.length = mid.length + 1 := by
  intro mid
  induction mid with
  | nil =>
    intro last extra url params projs tgts _ herr hnx
    constructor
    · simp [fetchGo, herr, hnx]
    · simp [fetchGo, herr, hnx]
  | cons p mid ih =>
    intro last extra url params projs tgts hmid herr hnx
    obtain ⟨hperr, hpnext⟩ := hmid p (List.mem_cons_self _ _)
    cases hnxp : pageNext p with
    | none => rw [hnxp] at hpnext; simp at hpnext
    | some n =>
      have hn : ¬ n = "" := by
        rw [hnxp] at hpnext
        simpa using hpnext
      have ih' := ih last extra (resolveNext n) none
        (projs ++ p.data.getD []) (addIncluded tgts (p.included.getD []))
        (fun q hq => hmid q (List.mem_cons_of_mem _ hq)) herr hnx
      constructor
      · simp only [List.cons_append, fetchGo, hperr, Option.isSome_none,
          Bool.false_eq_true, if_false, hnxp, if_neg hn]
        exact congrArg _ ih'.1
      · simp only [List.cons_append, fetchGo, hperr, Option.isSome_none,
          Bool.false_eq_true, if_false, hnxp, if_neg hn, List.length_cons]
        have h2 : (fetchGo (resolveNext n) none (mid.append [last])
            (projs ++ p.data.getD []) (addIncluded tgts (p.included.getD []))).1.length =
            mid.length + 1 := ih'.2
        omega

/-- C5: a page whose payload carries an `errors` list soft-stops the fetch: the
projects and targets accumulated from the prior pages are returned unchanged,
and the pipeline still produces a report from them. -/
theorem fetch_soft_stop (org : String) (good : List PageResponse) (err : PageResponse)
    (rest : List PageResponse)
    (hgood : ∀ p ∈ good, p.errors = none ∧ (pageNext p).isSome)
    (herr : err.errors.isSome) :
    (fetch_all_projects org (good ++ err :: rest)).2 =
      (fetch_all_projects org good).2 ∧
    run_from_pages org (good ++ err :: rest) = run_from_pages org good := by
  have h := fetchGo_soft_stop herr rest good
    ("https://api.eu.snyk.io/rest/orgs/" ++ org ++ "/projects") (some initParams)
    [] [] hgood
  refine ⟨h, ?_⟩
  simp only [run_from_pages, fetch_all_projects] at *
  rw [h]

/-- C5 witness: after one successful page, an error page stops pagination but
keeps the page-one accumulation. -/
theorem fetch_soft_stop_witness :
    (∀ p ∈ [pageOk [mkNamedProj "a" "t1"] (some "/p2")],
      p.errors = none ∧ (pageNext p).isSome) ∧
    (pageErr none).errors.isSome = true ∧
    (fetch_all_projects "o"
        ([pageOk [mkNamedProj "a" "t1"] (some "/p2")] ++ pageErr none :: [])).2 =
      (fetch_all_projects "o" [pageOk [mkNamedProj "a" "t1"] (some "/p2")]).2 ∧
    run_from_pages "o" ([pageOk [mkNamedProj "a" "t1"] (some "/p2")] ++ pageErr none :: []) =
      run_from_pages "o" [pageOk [mkNamedProj "a" "t1"] (some "/p2")] := by
  have h := fetch_soft_stop "o" [pageOk [mkNamedProj "a" "t1"] (some "/p2")]
    (pageErr none) [] (by decide) (by decide)
  exact ⟨by decide, by decide, h.1, h.2⟩

/-- C6: every follow-up request of the fetch loop targets the previous page's
`next` link — absolute links unchanged, relative links prefixed with the API
domain — and is sent without the original query parameters. -/
theorem fetch_next_link_resolution (org : String) (pages : List PageResponse) (i : Nat)
    (h : i + 1 < (fetch_all_projects org pages).1.length) :
    ∃ r n, pages[i]? = some r ∧ r.errors = none ∧ pageNext r = some n ∧
      (fetch_all_projects org pages).1[i + 1]? =
        some ⟨if startswith n "/" then "https://api.eu.snyk.io" ++ n else n, none⟩ :=
  fetchGo_next_requests pages _ _ _ _ i h

/-- C6 witness: a relative `next` link `/rest/orgs/X/projects?page=2` is
requested as the domain-prefixed absolute URL with no query parameters, and an
absolute link is requested unchanged. -/
theorem fetch_next_link_resolution_witness :
    (fetch_all_projects "X"
        [pageOk [] (some "/rest/orgs/X/projects?page=2"),
         pageOk [] (some "https://api.eu.snyk.io/rest/orgs/X/projects?page=3"),
         pageOk [] none]).1 =
      [⟨"https://api.eu.snyk.io/rest/orgs/X/projects", some initParams⟩,
       ⟨"https://api.eu.snyk.io/rest/orgs/X/projects?page=2", none⟩,
       ⟨"https://api.eu.snyk.io/rest/orgs/X/projects?page=3", none⟩] ∧
    (∃ r n,
      ([pageOk [] (some "/rest/orgs/X/projects?page=2"),
        pageOk [] (some "https://api.eu.snyk.io/rest/orgs/X/projects?page=3"),
        pageOk [] none] : List PageResponse)[0]? = some r ∧
      r.errors = none ∧ pageNext r = some n ∧
      (fetch_all_projects "X"
          [pageOk [] (some "/rest/orgs/X/projects?page=2"),
           pageOk [] (some "https://api.eu.snyk.io/rest/orgs/X/projects?page=3"),
           pageOk [] none]).1[0 + 1]? =
        some ⟨if startswith n "/" then "https://api.eu.snyk.io" ++ n else n, none⟩) := by
  refine ⟨by decide, ?_⟩
  exact fetch_next_link_resolution "X"
    [pageOk [] (some "/rest/orgs/X/projects?page=2"),
     pageOk [] (some "https://api.eu.snyk.io/rest/orgs/X/projects?page=3"),
     pageOk [] none] 0 (by decide)

/-- C7 counterexample: two pages where the first (non-last) page carries a
`next` link *and* an `errors` payload, and the last page's `next` is null; the
fetcher stops at the error page after a single request, so it does not issue
one request per page as the claim states. -/
theorem pagination_termination_counterexample :
    pageNext (pageErr (some "/p2")) = some "/p2" ∧
    pageNext (pageOk [] none) = none ∧
    (fetch_all_projects "o" [pageErr (some "/p2"), pageOk [] none]).1.length = 1 ∧
    (fetch_all_projects "o" [pageErr (some "/p2"), pageOk [] none]).1.length ≠
      ([pageErr (some "/p2"), pageOk [] none] : List PageResponse).length := by
  decide

/-- C7 (amended): for every finite sequence of pages *none of which carries an
`errors` payload*, in which each page except the last has a truthy (non-empty)
`next` link and the last page's `next` link is absent, the fetcher issues
exactly one request per page, in sequence order, and stops after the page
without a `next` link. -/
theorem pagination_termination (org : String) (mid : List PageResponse)
    (last : PageResponse) (extra : List PageResponse)
    (hmid : ∀ p ∈ mid, p.errors = none ∧ (pageNext p).getD "" ≠ "")
    (hlast_err : last.errors = none) (hlast_next : pageNext last = none) :
    (fetch_all_projects org (mid ++ last :: extra)).1 =
      (fetch_all_projects org (mid ++ [last])).1 ∧
    (fetch_all_projects org (mid ++ [last])).1.length = (mid ++ [last]).length := by
  have h := fetchGo_pagination mid last extra
    ("https://api.eu.snyk.io/rest/orgs/" ++ org ++ "/projects") (some initParams)
    [] [] hmid hlast_err hlast_next
  refine ⟨h.1, ?_⟩
  simp only [fetch_all_projects]
  rw [h.2]
  simp

/-- C7 witness: a two-page sequence gives exactly two requests, and trailing
synthetic pages after the `next: null` page are never requested. -/
theorem pagination_termination_witness :
    (∀ p ∈ [pageOk [] (some "/p2")], p.errors = none ∧ (pageNext p).getD "" ≠ "") ∧
    (fetch_all_projects "o"
        ([pageOk [] (some "/p2")] ++ pageOk [] none :: [pageErr none])).1 =
      (fetch_all_projects "o" ([pageOk [] (some "/p2")] ++ [pageOk [] none])).1 ∧
    (fetch_all_projects "o" ([pageOk [] (some "/p2")] ++ [pageOk [] none])).1.length =
      ([pageOk [] (some "/p2")] ++ [pageOk [] none] : List PageResponse).length := by
  have h := pagination_termination "o" [pageOk [] (some "/p2")] (pageOk [] none)
    [pageErr none] (by decide) (by decide) (by decide)
  exact ⟨by decide, h.1, h.2⟩

end SnykDup
